/-
Verification of the drift static-analysis engine against its specification.

The definitions below are a shallow embedding of the Go sources:
  * `internal/analyzer/analyzer.go`   — orchestrator, `sortComplexityDesc`
  * the exact Go complexity calculator (`calcComplexity` over `go/ast`)
  * `internal/analyzer/heuristic.go`  — heuristic span scanning, boundary checks
  * `internal/analyzer/imports.go`    — boundary rule parsing and matching
  * the Go dependency resolver (`analyzeDeps`) and the TypeScript one
  * `internal/health/score.go`        — health score aggregation

Go machine integers are modelled as `Int` (no overflow occurs in any of the
code paths treated here), Go `float64` arithmetic as `ℚ` (all constants in
`score.go` are decimal literals, and the example computations stay exact),
Go strings as `String` or `List Char` (byte-level operations such as
`strings.HasPrefix` / `strings.Contains` become prefix / infix on the
character list), and Go slices as `List` or as index functions `Nat → α`.
-/
import Mathlib

set_option maxHeartbeats 1000000

namespace Drift

/-- Model of `FunctionComplexity` from `internal/analyzer` (file, name, line, complexity). -/
structure FunctionComplexity where
  File : String
  Name : String
  Line : Int
  Complexity : Int
  deriving Repr, DecidableEq, Inhabited

/-! ## `sortComplexityDesc` (analyzer.go lines 102–110)

The Go code sorts the slice in place with two nested index loops:

    for i := 0; i < len(funcs); i++ {
      for j := i + 1; j < len(funcs); j++ {
        if funcs[j].Complexity > funcs[i].Complexity {
          funcs[i], funcs[j] = funcs[j], funcs[i]
        }
      }
    }

The slice is modelled as its length `n` together with the index function
`f : Nat → FunctionComplexity`; the swap assignment becomes `swapIdx`. -/

/-- The swap assignment `funcs[i], funcs[j] = funcs[j], funcs[i]` on an index function. -/
def swapIdx (f : Nat → FunctionComplexity) (i j : Nat) : Nat → FunctionComplexity :=
  fun k => if k = i then f j else if k = j then f i else f k

/-- The inner loop `for j := i+1; j < n; j++ { if a[j].Complexity > a[i].Complexity swap }`,
as a fold of the loop body over the indices `j, j+1, ..., n-1` it visits. -/
def innerPass (n : Nat) (i : Nat) (f : Nat → FunctionComplexity) (j : Nat) :
    Nat → FunctionComplexity :=
  (List.range' j (n - j)).foldl
    (fun g j' => if (g j').Complexity > (g i).Complexity then swapIdx g i j' else g) f

/-- The outer loop `for i := 0; i < n; i++`, as a fold of its body (the
whole inner loop started at `j = i+1`) over the indices `i, ..., n-1`. -/
def outerPass (n : Nat) (f : Nat → FunctionComplexity) (i : Nat) :
    Nat → FunctionComplexity :=
  (List.range' i (n - i)).foldl (fun g i' => innerPass n i' g (i' + 1)) f

/-- Model of `sortComplexityDesc` from analyzer.go: run the two nested loops over the
slice contents and read the slice back. -/
def sortComplexityDesc (l : List FunctionComplexity) : List FunctionComplexity :=
  (List.range l.length).map
    (outerPass l.length (fun k => l.getD k default) 0)

/-! ## Exact Go complexity calculator (`calcComplexity` over `go/ast`)

The relevant fragment of the Go abstract syntax is modelled below.  A
`GoCaseClause` whose pattern list is `none` is a `default:` clause
(`node.List == nil` in Go); a `GoCommClause` whose communication statement is
`none` is the `default:` arm of a `select`. -/

inductive GoBinOp where
  | land  -- `&&` (token.LAND)
  | lor   -- `||` (token.LOR)
  | other -- any arithmetic / comparison operator
  deriving Repr, DecidableEq

mutual
inductive GoExpr where
  | ident (name : String) : GoExpr
  | binary (op : GoBinOp) (lhs rhs : GoExpr) : GoExpr
  | unary (arg : GoExpr) : GoExpr
  | call (fn : GoExpr) (args : List GoExpr) : GoExpr
  | paren (e : GoExpr) : GoExpr
  | funcLit (body : List GoStmt) : GoExpr

inductive GoStmt where
  | exprStmt (e : GoExpr) : GoStmt
  | assign (rhs : List GoExpr) : GoStmt
  | ret (results : List GoExpr) : GoStmt
  | ifStmt (cond : GoExpr) (body : List GoStmt) (els : Option GoStmt) : GoStmt
  | forStmt (cond : Option GoExpr) (body : List GoStmt) : GoStmt
  | rangeStmt (x : GoExpr) (body : List GoStmt) : GoStmt
  | switchStmt (tag : Option GoExpr) (cases : List GoCaseClause) : GoStmt
  | typeSwitchStmt (cases : List GoCaseClause) : GoStmt
  | selectStmt (comms : List GoCommClause) : GoStmt
  | block (stmts : List GoStmt) : GoStmt

inductive GoCaseClause where
  | mk (patterns : Option (List GoExpr)) (body : List GoStmt) : GoCaseClause

inductive GoCommClause where
  | mk (comm : Option GoStmt) (body : List GoStmt) : GoCommClause
end

/-! `ast.Inspect(body, ...)` visits every node of the tree and, because the
callback returns `false` on `*ast.FuncLit`, does not descend into nested
function literals.  The mutually recursive counters below add, per visited
node, exactly what the `switch` in `calcComplexity` adds: 1 for `IfStmt`,
`ForStmt`, `RangeStmt`, `SelectStmt`, `TypeSwitchStmt`, for a `CaseClause`
with a non-nil pattern list, for a `CommClause` with a non-nil comm
statement, and for a `BinaryExpr` whose operator is `&&` or `||`. -/

mutual
def countExpr : GoExpr → Int
  | .ident _ => 0
  | .binary op l r =>
      (if op = .land ∨ op = .lor then 1 else 0) + countExpr l + countExpr r
  | .unary e => countExpr e
  | .call fn args => countExpr fn + countExprList args
  | .paren e => countExpr e
  | .funcLit _ => 0  -- Inspect returns false: the whole subtree is skipped

def countExprList : List GoExpr → Int
  | [] => 0
  | e :: rest => countExpr e + countExprList rest

def countOptExpr : Option GoExpr → Int
  | none => 0
  | some e => countExpr e

def countStmt : GoStmt → Int
  | .exprStmt e => countExpr e
  | .assign rhs => countExprList rhs
  | .ret results => countExprList results
  | .ifStmt cond body els => 1 + countExpr cond + countStmtList body + countOptStmt els
  | .forStmt cond body => 1 + countOptExpr cond + countStmtList body
  | .rangeStmt x body => 1 + countExpr x + countStmtList body
  | .switchStmt tag cases => countOptExpr tag + countCaseList cases
  | .typeSwitchStmt cases => 1 + countCaseList cases
  | .selectStmt comms => 1 + countCommList comms
  | .block stmts => countStmtList stmts

def countStmtList : List GoStmt → Int
  | [] => 0
  | s :: rest => countStmt s + countStmtList rest

def countOptStmt : Option GoStmt → Int
  | none => 0
  | some s => countStmt s

def countCase : GoCaseClause → Int
  | .mk patterns body =>
      (if patterns.isSome then 1 else 0) + countOptExprList patterns + countStmtList body

def countOptExprList : Option (List GoExpr) → Int
  | none => 0
  | some es => countExprList es

def countCaseList : List GoCaseClause → Int
  | [] => 0
  | c :: rest => countCase c + countCaseList rest

def countComm : GoCommClause → Int
  | .mk comm body => (if comm.isSome then 1 else 0) + countOptStmt comm + countStmtList body

def countCommList : List GoCommClause → Int
  | [] => 0
  | c :: rest => countComm c + countCommList rest
end

/-- Model of `calcComplexity(body *ast.BlockStmt)`: `nil` body yields 1, otherwise
`1 +` the decision points counted by `ast.Inspect`. -/
def calcComplexity (body : Option (List GoStmt)) : Int :=
  match body with
  | none => 1
  | some stmts => 1 + countStmtList stmts

/-! ## Heuristic complexity scanner (heuristic.go lines 55–107)

A `complexityPattern` pairs a line predicate (the compiled regular
expression, modelled as an arbitrary `String → Bool` function)
with an integer weight.  Every pattern table in the repository
(`pyComplexityPatterns`, `tsComplexityPatterns`, `rsComplexityPatterns`,
`javaComplexityPatterns`, `csComplexityPatterns`, `phpComplexityPatterns`)
uses weight 1 for every entry. -/

structure ComplexityPattern where
  pattern : String → Bool
  weight : Int

/-- Model of `funcBoundary` from heuristic.go; `stop` is the Go field `end`
(one past the last line index of the span). -/
structure FuncBoundary where
  name : String
  file : String
  line : Int
  start : Nat
  stop : Nat

/-- The inner pattern loop of `scanHeuristicComplexity`: the weight a
single line contributes. -/
def lineWeight (patterns : List ComplexityPattern) (line : String) : Int :=
  patterns.foldl (fun acc p => if p.pattern line then acc + p.weight else acc) 0

/-- The per-function loop body of `scanHeuristicComplexity`:
`complexity := 1` then add every matching pattern weight on each line
with index in `[fn.start, min fn.stop (allLines.length))`. -/
def spanComplexity (patterns : List ComplexityPattern) (allLines : List String)
    (fn : FuncBoundary) : Int :=
  ((allLines.take fn.stop).drop fn.start).foldl
    (fun c line => c + lineWeight patterns line) 1

/-- Model of `scanHeuristicComplexity` with the file contents (`allLines`) and the
`detectFunctions` output (`funcs`) made explicit inputs (file reading and
span detection touch the filesystem and regex engine, so they enter the
model as data). -/
def scanHeuristicComplexity (path : String) (allLines : List String)
    (funcs : List FuncBoundary) (patterns : List ComplexityPattern) :
    List FunctionComplexity :=
  funcs.map fun fn =>
    { File := path, Name := fn.name, Line := fn.line,
      Complexity := spanComplexity patterns allLines fn }

/-! ## Boundary rule engine (imports.go, heuristic.go lines 184–214)

Strings handled by the rule engine are modelled as `List Char`;
`strings.HasPrefix`, `strings.Contains`, `strings.Split(s, "->")` and
`strings.TrimSpace` become the character-list functions below.
`filepath.ToSlash` is the identity on the already slash-separated relative
paths considered here. -/

/-- Model of `BoundaryViolation` from imports.go.  `File` holds what the Go code
stores there (`filepath.Base` of the offending file, a pure path
computation performed before the record is built). -/
structure BoundaryViolation where
  File : List Char
  Line : Int
  From : List Char
  To : List Char
  Import : List Char
  deriving Repr, DecidableEq

/-- An `(import path, line)` pair produced by `extractImports` (heuristic
path) or taken from `f.Imports` (exact Go path). -/
structure ImportMatch where
  path : List Char
  line : Int
  deriving Repr, DecidableEq

/-- ASCII model of the white space recognised by `strings.TrimSpace`. -/
def isSpaceChar (c : Char) : Bool :=
  c = ' ' || c = '\t' || c = '\n' || c = '\r'

/-- Model of `strings.TrimSpace`. -/
def trimSpace (s : List Char) : List Char :=
  ((s.dropWhile isSpaceChar).reverse.dropWhile isSpaceChar).reverse

/-- Model of `strings.Split(deny, "->")`: greedy left-to-right split on the
two-character separator. -/
def splitArrowAux (acc : List Char) : List Char → List (List Char)
  | [] => [acc.reverse]
  | [c] => [(c :: acc).reverse]
  | c :: d :: rest =>
    if c = '-' ∧ d = '>' then acc.reverse :: splitArrowAux [] rest
    else splitArrowAux (c :: acc) (d :: rest)

/-- Model of `parseBoundaryRule` (imports.go lines 64–70): split on `"->"`; any
part count other than two yields the empty pair, otherwise both parts are
trimmed. -/
def parseBoundaryRule (deny : List Char) : List Char × List Char :=
  match splitArrowAux [] deny with
  | [a, b] => (trimSpace a, trimSpace b)
  | _ => ([], [])

/-- Model of `matchesPath` (imports.go lines 72–76): `strings.HasPrefix(dir, pattern) || dir == pattern`. -/
def matchesPath (dir pat : List Char) : Bool :=
  pat.isPrefixOf dir || dir == pat

/-- Model of `strings.Contains`. -/
def containsSublist (pat : List Char) : List Char → Bool
  | [] => pat.isEmpty
  | c :: rest => pat.isPrefixOf (c :: rest) || containsSublist pat rest

/-- Model of `matchesImport` (imports.go lines 78–80): `strings.Contains(importPath, pattern)`. -/
def matchesImport (importPath pat : List Char) : Bool :=
  containsSublist pat importPath

/-- The shared per-(import, rule) body of both analyzers' rule loops:
parse the rule, skip it when a side is empty, emit one violation when both
matchers fire. -/
def ruleViolation (filePath fileDir : List Char) (imp : ImportMatch)
    (rule : List Char) : Option BoundaryViolation :=
  let (fromPat, toPat) := parseBoundaryRule rule
  if fromPat = [] ∨ toPat = [] then none
  else if matchesPath fileDir fromPat && matchesImport imp.path toPat then
    some { File := filePath, Line := imp.line, From := fromPat, To := toPat,
           Import := imp.path }
  else none

/-- Model of `checkBoundaryViolations` (heuristic.go lines 184–214) for one file:
`fileDir` is `filepath.Dir(filepath.Rel(root, filePath))`, a pure path
computation performed before the loops; the nested
for-each-import / for-each-rule append loop is the `flatMap` / `filterMap`
below, which emits the violations in the same order. -/
def checkBoundaryViolations (filePath fileDir : List Char)
    (imports : List ImportMatch) (rules : List (List Char)) :
    List BoundaryViolation :=
  if rules.isEmpty then []
  else imports.flatMap fun imp => rules.filterMap (ruleViolation filePath fileDir imp)

/-- A parsed Go file as the exact import analyzer sees it: its path, its
directory relative to the project root, and its import declarations. -/
structure GoFileImports where
  path : List Char
  dir : List Char
  imports : List ImportMatch

/-- Model of `analyzeImports` (imports.go lines 20–62): the same triple loop of the
exact Go analyzer — files, then imports, then rules. -/
def analyzeImports (files : List GoFileImports) (rules : List (List Char)) :
    List BoundaryViolation :=
  if rules.isEmpty then []
  else files.flatMap fun f =>
    f.imports.flatMap fun imp => rules.filterMap (ruleViolation f.path f.dir imp)

/-! ## Dependency resolver (Go `analyzeDeps` and the TypeScript variant)

The registry round trip (`fetchLatestVersion`) is network I/O, so it enters
the model as a function argument: `none` models any network / HTTP / decode
failure, `some (latest, staleDays)` a successful lookup together with
`int(time.Since(info.Time).Hours() / 24)`, the already truncated number of
days since the latest version was published. -/

/-- Model of `DepStatus` from the analyzer package. -/
structure DepStatus where
  Module : String
  CurrentVersion : String
  LatestVersion : String
  StaleDays : Int
  Status : String
  deriving Repr, DecidableEq

/-- The per-dependency classification inside the Go `analyzeDeps` loop
(lines 42–65 of the file holding it). -/
def classifyGoDep (module current : String)
    (fetch : Option (String × Int)) : DepStatus :=
  match fetch with
  | none =>
      { Module := module, CurrentVersion := current, LatestVersion := "?",
        StaleDays := 0, Status := "unknown" }
  | some (latest, staleDays) =>
      if current = latest then
        { Module := module, CurrentVersion := current, LatestVersion := latest,
          StaleDays := 0, Status := "current" }
      else if staleDays > 90 then
        { Module := module, CurrentVersion := current, LatestVersion := latest,
          StaleDays := staleDays, Status := "outdated" }
      else
        { Module := module, CurrentVersion := current, LatestVersion := latest,
          StaleDays := staleDays, Status := "stale" }

/-- One `require` directive of a go.mod file. -/
structure Require where
  path : String
  version : String
  indirect : Bool

/-- Model of `shortModuleName`: the last `/`-separated component. -/
def shortModuleName (mod : String) : String :=
  let parts := mod.splitOn "/"
  if parts.length ≤ 1 then mod else parts.getLastD mod

/-- Model of `analyzeDeps`: skip indirect requires, classify each direct one with
the (possibly failing) registry lookup `fetch`. -/
def analyzeDeps (reqs : List Require) (fetch : String → Option (String × Int)) :
    List DepStatus :=
  (reqs.filter fun r => !r.indirect).map fun r =>
    classifyGoDep (shortModuleName r.path) r.version (fetch r.path)

/-- Model of `estimateStaleDays` of the TypeScript analyzer: the publish timestamp
of the latest version when the full registry document has it, otherwise the
fixed 30-day default. -/
def estimateStaleDays (timeEntry : Option Int) : Int :=
  match timeEntry with
  | none => 30
  | some days => days

/-- The per-dependency classification inside `TypeScriptAnalyzer.AnalyzeDeps`:
`fetchLatest = none` models a failed `registry.npmjs.org/<name>/latest`
lookup; `timeEntry` feeds `estimateStaleDays`. -/
def classifyTsDep (name current : String) (fetchLatest : Option String)
    (timeEntry : Option Int) : DepStatus :=
  match fetchLatest with
  | none =>
      { Module := name, CurrentVersion := current, LatestVersion := "?",
        StaleDays := 0, Status := "unknown" }
  | some latest =>
      if current = latest then
        { Module := name, CurrentVersion := current, LatestVersion := latest,
          StaleDays := 0, Status := "current" }
      else
        let staleDays := estimateStaleDays timeEntry
        if staleDays > 90 then
          { Module := name, CurrentVersion := current, LatestVersion := latest,
            StaleDays := staleDays, Status := "outdated" }
        else
          { Module := name, CurrentVersion := current, LatestVersion := latest,
            StaleDays := staleDays, Status := "stale" }

/-- Modelled from the claim's words, for the C2 comparison: the claim
predicts the stale/outdated split at "the configured staleness threshold
(default 90)" — `stale` when days-since-publish is at most that configured
threshold, `outdated` when it exceeds it. -/
def specClassifyStatus (configuredMaxStaleDays staleDays : Int) : String :=
  if staleDays ≤ configuredMaxStaleDays then "stale" else "outdated"

/-! ## Health score (internal/health/score.go), over `ℚ` -/

/-- Model of `DeadFunction` from the analyzer package. -/
structure DeadFunction where
  File : String
  Name : String
  Line : Int
  deriving Repr, DecidableEq

/-- Model of `analyzer.Results` (analyzer.go lines 9–17). -/
structure Results where
  Complexity : List FunctionComplexity
  Dependencies : List DepStatus
  Violations : List BoundaryViolation
  DeadCode : List DeadFunction
  FileCount : Int
  FuncCount : Int
  Language : String

/-- Model of `config.WeightConfig` (float64 weights, modelled in `ℚ`). -/
structure WeightConfig where
  Complexity : ℚ
  Deps : ℚ
  Boundaries : ℚ
  DeadCode : ℚ
  Coverage : ℚ

/-- Model of `health.Score`. -/
structure Score where
  Total : ℚ
  Complexity : ℚ
  Deps : ℚ
  Boundaries : ℚ
  DeadCode : ℚ
  Coverage : ℚ
  Delta : ℚ
  deriving Repr, DecidableEq

/-- Go's `math.Round`: round half away from zero. -/
def goRound (x : ℚ) : ℚ :=
  if 0 ≤ x then (⌊x + 1/2⌋ : ℤ) else (⌈x - 1/2⌉ : ℤ)

/-- Model of `Scorer.complexityScore` (it reads only `r.Complexity`, passed here
directly): 100 on an empty record list, otherwise
100 minus `min(excess/threshold*20, 20)` per function above the threshold,
clamped to `[0, 100]`; a zero configured `MaxComplexity` falls back to 15. -/
def complexityScore (maxComplexity : Int) (funcs : List FunctionComplexity) : ℚ :=
  if funcs.length = 0 then 100
  else
    let threshold : ℚ := if (maxComplexity : ℚ) = 0 then 15 else (maxComplexity : ℚ)
    let totalPenalty := funcs.foldl
      (fun acc fc =>
        if (fc.Complexity : ℚ) > threshold then
          acc + min (((fc.Complexity : ℚ) - threshold) / threshold * 20) 20
        else acc) 0
    max 0 (min 100 (100 - totalPenalty))

/-- Model of `Scorer.depsScore` (reads only `r.Dependencies`): 100 on an empty
dependency list, otherwise 100 minus `min(staleDays/maxStale*15, 15)` per
dependency with positive `StaleDays`, clamped; a zero configured
`MaxStaleDays` falls back to 90. -/
def depsScore (maxStaleDays : Int) (deps : List DepStatus) : ℚ :=
  if deps.length = 0 then 100
  else
    let maxStale : ℚ := if (maxStaleDays : ℚ) = 0 then 90 else (maxStaleDays : ℚ)
    let totalPenalty := deps.foldl
      (fun acc dep =>
        if dep.StaleDays > 0 then
          acc + min ((dep.StaleDays : ℚ) / maxStale * 15) 15
        else acc) 0
    max 0 (min 100 (100 - totalPenalty))

/-- Model of `Scorer.boundariesScore` (reads only `r.Violations`): 10 flat per
violation, clamped. -/
def boundariesScore (violations : List BoundaryViolation) : ℚ :=
  if violations.length = 0 then 100
  else max 0 (min 100 (100 - (violations.length : ℚ) * 10))

/-- Model of `Scorer.deadCodeScore` (reads only `r.DeadCode`): 5 flat per dead
function, clamped. -/
def deadCodeScore (deadCode : List DeadFunction) : ℚ :=
  if deadCode.length = 0 then 100
  else max 0 (min 100 (100 - (deadCode.length : ℚ) * 5))

/-- Model of `Scorer.Calculate`: the four sub-scores plus the coverage placeholder,
combined with the configured weights, rounded to one decimal; the mutable
`Scorer.previous` field (initialised to −1 by `NewScorer`) is threaded
explicitly and returned updated. -/
def calculate (w : WeightConfig) (maxComplexity maxStaleDays : Int)
    (previous : ℚ) (r : Results) : Score × ℚ :=
  let c := complexityScore maxComplexity r.Complexity
  let d := depsScore maxStaleDays r.Dependencies
  let b := boundariesScore r.Violations
  let dc := deadCodeScore r.DeadCode
  let cov : ℚ := 100
  let total := goRound ((c * w.Complexity + d * w.Deps + b * w.Boundaries +
    dc * w.DeadCode + cov * w.Coverage) * 10) / 10
  let delta := if 0 ≤ previous then total - previous else 0
  ({ Total := total, Complexity := c, Deps := d, Boundaries := b,
     DeadCode := dc, Coverage := cov, Delta := delta }, total)

/-! ### The specification's wording of the score (claim C3)

The next definitions follow the claim's sentences — "complexity sub-score =
100 minus min((excess/threshold)×20, 20) per function whose complexity
exceeds the threshold; dependency sub-score = 100 minus
min((staleDays/maxStaleDays)×15, 15) per non-current dependency; …; each
sub-score clamped to [0,100]; total = the weight-weighted sum of sub-scores
rounded to one decimal" — to be compared with `calculate` above. -/

def specComplexityScore (threshold : ℚ) (funcs : List FunctionComplexity) : ℚ :=
  max 0 (min 100 (100 -
    (funcs.map fun fc =>
      if (fc.Complexity : ℚ) > threshold then
        min (((fc.Complexity : ℚ) - threshold) / threshold * 20) 20
      else 0).sum))

def specDepsScore (maxStale : ℚ) (deps : List DepStatus) : ℚ :=
  max 0 (min 100 (100 -
    (deps.map fun dep =>
      if dep.Status ≠ "current" then
        min ((dep.StaleDays : ℚ) / maxStale * 15) 15
      else 0).sum))

def specBoundariesScore (violations : List BoundaryViolation) : ℚ :=
  max 0 (min 100 (100 - 10 * (violations.length : ℚ)))

def specDeadCodeScore (deadCode : List DeadFunction) : ℚ :=
  max 0 (min 100 (100 - 5 * (deadCode.length : ℚ)))

def specTotal (w : WeightConfig) (threshold maxStale : ℚ) (r : Results) : ℚ :=
  goRound ((specComplexityScore threshold r.Complexity * w.Complexity +
    specDepsScore maxStale r.Dependencies * w.Deps +
    specBoundariesScore r.Violations * w.Boundaries +
    specDeadCodeScore r.DeadCode * w.DeadCode +
    100 * w.Coverage) * 10) / 10

/-- The configuration defaults: weights 0.30 / 0.20 / 0.20 / 0.15 / 0.15. -/
def defaultWeights : WeightConfig :=
  { Complexity := 3/10, Deps := 1/5, Boundaries := 1/5,
    DeadCode := 3/20, Coverage := 3/20 }

/-- The specification's worked example as analysis results: one function of
complexity 30 against threshold 15 (complexity sub-score 80), one
dependency 60 days stale against `maxStaleDays` 90 (dependency sub-score
90), no violations (100), one dead function (95), coverage placeholder
100. -/
def exampleResults : Results :=
  { Complexity := [⟨"a.go", "big", 1, 30⟩]
    Dependencies := [⟨"mod", "v1.0.0", "v1.2.0", 60, "stale"⟩]
    Violations := []
    DeadCode := [⟨"a.go", "unused", 9⟩]
    FileCount := 1, FuncCount := 1, Language := "go" }

/-! ## Orchestrator (analyzer.go `Run` / `RunSingle`)

`LanguageAnalyzer` is the strategy interface of the language facade; its
methods are opaque functions here, with `Option` standing for the `error`
returns (`none` = non-nil error). -/

structure LanguageAnalyzer where
  Language : String
  Extensions : List String
  FindFiles : String → List String → Option (List String)
  AnalyzeComplexity : List String → List FunctionComplexity × Int
  AnalyzeDeps : String → Option (List DepStatus)
  AnalyzeImports : List String → List (List Char) → String → List BoundaryViolation
  AnalyzeDeadCode : List String → List DeadFunction

/-- The configuration fields `Analyzer.Run` / `RunSingle` read. -/
structure Config where
  Root : String
  Exclude : List String
  Boundaries : List (List Char)

/-- Model of `Analyzer.Run` (analyzer.go lines 38–64): discovery, complexity,
dependencies (errors leave the list nil), imports, dead code, then the
in-place descending sort of the complexity records. -/
def run (la : LanguageAnalyzer) (cfg : Config) : Option Results :=
  match la.FindFiles cfg.Root cfg.Exclude with
  | none => none
  | some files =>
    let (complexity, funcCount) := la.AnalyzeComplexity files
    some
      { Language := la.Language
        FileCount := (files.length : Int)
        Complexity := sortComplexityDesc complexity
        FuncCount := funcCount
        Dependencies := (la.AnalyzeDeps cfg.Root).getD []
        Violations := la.AnalyzeImports files cfg.Boundaries cfg.Root
        DeadCode := la.AnalyzeDeadCode files }

/-- The extension test of `RunSingle`:
`len(path) > len(ext) && path[len(path)-len(ext):] == ext`. -/
def extMatches (path ext : String) : Bool :=
  ext.toList.length < path.toList.length && ext.toList.isSuffixOf path.toList

/-- Model of `Analyzer.RunSingle` (analyzer.go lines 66–92): when the path carries
one of the language's extensions, recompute complexity for just that file;
dependencies, violations and dead code keep their zero values. -/
def runSingle (la : LanguageAnalyzer) (path : String) : Results :=
  let empty : Results :=
    { Language := la.Language, Complexity := [], Dependencies := [],
      Violations := [], DeadCode := [], FileCount := 0, FuncCount := 0 }
  let matched := la.Extensions.any (extMatches path)
  if matched then
    let (complexity, funcCount) := la.AnalyzeComplexity [path]
    { empty with Complexity := complexity, FuncCount := funcCount, FileCount := 1 }
  else empty

/-- A small concrete language strategy used to exercise the orchestrator
in closed statements (its `AnalyzeComplexity` reports two functions out of
discovery order). -/
def sampleAnalyzer : LanguageAnalyzer :=
  { Language := "go"
    Extensions := [".go"]
    FindFiles := fun _ _ => some ["a.go"]
    AnalyzeComplexity := fun _ =>
      ([⟨"a.go", "main", 1, 3⟩, ⟨"a.go", "helper", 5, 7⟩], 2)
    AnalyzeDeps := fun _ => none
    AnalyzeImports := fun _ _ _ => []
    AnalyzeDeadCode := fun _ => [] }

/-- A minimal configuration for the sample runs. -/
def sampleConfig : Config :=
  { Root := ".", Exclude := [], Boundaries := [] }

/-! ## Lemmas about `sortComplexityDesc` -/

lemma innerPass_stop (n i j : Nat) (f : Nat → FunctionComplexity) (h : ¬ j < n) :
    innerPass n i f j = f := by
  unfold innerPass
  have hz : n - j = 0 := by omega
  rw [hz]
  rfl

lemma innerPass_step (n i j : Nat) (f : Nat → FunctionComplexity) (h : j < n) :
    innerPass n i f j =
      innerPass n i
        (if (f j).Complexity > (f i).Complexity then swapIdx f i j else f) (j + 1) := by
  unfold innerPass
  have hs : n - j = (n - (j + 1)) + 1 := by omega
  rw [hs]
  rfl

lemma outerPass_stop (n : Nat) (f : Nat → FunctionComplexity) (i : Nat) (h : ¬ i < n) :
    outerPass n f i = f := by
  unfold outerPass
  have hz : n - i = 0 := by omega
  rw [hz]
  rfl

lemma outerPass_step (n : Nat) (f : Nat → FunctionComplexity) (i : Nat) (h : i < n) :
    outerPass n f i = outerPass n (innerPass n i f (i + 1)) (i + 1) := by
  unfold outerPass
  have hs : n - i = (n - (i + 1)) + 1 := by omega
  rw [hs]
  rfl

/-- The inner loop never writes to an index below `i` that it has already
passed: all swaps touch positions `i` and `j' ≥ j` only. -/
lemma innerPass_frame (d : Nat) : ∀ (n i j : Nat) (f : Nat → FunctionComplexity),
    n - j ≤ d → ∀ k, k ≠ i → k < j → innerPass n i f j k = f k := by
  induction d with
  | zero =>
    intro n i j f hd k hki hkj
    rw [innerPass_stop n i j f (by omega)]
  | succ d ih =>
    intro n i j f hd k hki hkj
    by_cases h : j < n
    · rw [innerPass_step n i j f h]
      rw [ih n i (j + 1) _ (by omega) k hki (by omega)]
      by_cases hc : (f j).Complexity > (f i).Complexity
      · rw [if_pos hc]
        simp only [swapIdx, if_neg hki, if_neg (by omega : k ≠ j)]
      · rw [if_neg hc]
    · rw [innerPass_stop n i j f h]

/-- Every position in `[i, n)` of the inner loop's result holds a value the
loop found in `[i, n)` of its input: the loop permutes that range. -/
lemma innerPass_exists (d : Nat) : ∀ (n i j : Nat) (f : Nat → FunctionComplexity),
    n - j ≤ d → i < j → ∀ m, i ≤ m → m < n →
    ∃ m', i ≤ m' ∧ m' < n ∧ innerPass n i f j m = f m' := by
  induction d with
  | zero =>
    intro n i j f hd hij m him hmn
    rw [innerPass_stop n i j f (by omega)]
    exact ⟨m, him, hmn, rfl⟩
  | succ d ih =>
    intro n i j f hd hij m him hmn
    by_cases h : j < n
    · rw [innerPass_step n i j f h]
      obtain ⟨m', him', hm'n, heq⟩ :=
        ih n i (j + 1)
          (if (f j).Complexity > (f i).Complexity then swapIdx f i j else f)
          (by omega) (by omega) m him hmn
      by_cases hc : (f j).Complexity > (f i).Complexity
      · rw [if_pos hc] at heq ⊢
        by_cases hmi : m' = i
        · refine ⟨j, by omega, h, ?_⟩
          rw [heq]
          simp [swapIdx, hmi]
        · by_cases hmj : m' = j
          · refine ⟨i, le_refl i, by omega, ?_⟩
            rw [heq]
            simp only [swapIdx, if_neg hmi, if_pos hmj]
          · refine ⟨m', him', hm'n, ?_⟩
            rw [heq]
            simp [swapIdx, hmi, hmj]
      · rw [if_neg hc] at heq ⊢
        exact ⟨m', him', hm'n, heq⟩
    · rw [innerPass_stop n i j f h]
      exact ⟨m, him, hmn, rfl⟩

/-- If on entry `f i` dominates `[i, j)`, then on exit position `i` holds a
maximum of the whole suffix `[i, n)`. -/
lemma innerPass_le (d : Nat) : ∀ (n i j : Nat) (f : Nat → FunctionComplexity),
    n - j ≤ d → i < j →
    (∀ k, i ≤ k → k < j → (f k).Complexity ≤ (f i).Complexity) →
    ∀ m, i ≤ m → m < n →
    (innerPass n i f j m).Complexity ≤ (innerPass n i f j i).Complexity := by
  induction d with
  | zero =>
    intro n i j f hd hij hinv m him hmn
    rw [innerPass_stop n i j f (by omega)]
    exact hinv m him (by omega)
  | succ d ih =>
    intro n i j f hd hij hinv m him hmn
    by_cases h : j < n
    · rw [innerPass_step n i j f h]
      by_cases hc : (f j).Complexity > (f i).Complexity
      · rw [if_pos hc]
        refine ih n i (j + 1) _ (by omega) (by omega) ?_ m him hmn
        intro k hik hkj
        by_cases hki : k = i
        · subst hki
          exact le_refl _
        · by_cases hkj' : k = j
          · subst hkj'
            simp only [swapIdx, if_neg (by omega : k ≠ i), if_pos rfl,
              if_pos (rfl : i = i)]
            exact le_of_lt hc
          · simp only [swapIdx, if_neg hki, if_neg hkj', if_pos (rfl : i = i)]
            exact le_trans (hinv k hik (by omega)) (le_of_lt hc)
      · rw [if_neg hc]
        refine ih n i (j + 1) _ (by omega) (by omega) ?_ m him hmn
        intro k hik hkj
        by_cases hkj' : k = j
        · subst hkj'
          omega
        · exact hinv k hik (by omega)
    · rw [innerPass_stop n i j f h]
      exact hinv m him (by omega)

/-- The outer loop, run from `i`, yields a suffix-descending array provided
the prefix `[0, i)` is already descending and dominates the suffix. -/
lemma outerPass_sorted (d : Nat) : ∀ (n i : Nat) (f : Nat → FunctionComplexity),
    n - i ≤ d →
    (∀ k m, k < i → i ≤ m → m < n → (f m).Complexity ≤ (f k).Complexity) →
    (∀ k k', k < k' → k' < i → (f k').Complexity ≤ (f k).Complexity) →
    ∀ k k', k < k' → k' < n →
    (outerPass n f i k').Complexity ≤ (outerPass n f i k).Complexity := by
  induction d with
  | zero =>
    intro n i f hd hA hB k k' hkk hkn
    rw [outerPass_stop n f i (by omega)]
    exact hB k k' hkk (by omega)
  | succ d ih =>
    intro n i f hd hA hB k k' hkk hkn
    by_cases h : i < n
    · rw [outerPass_step n f i h]
      have gfr : ∀ k, k < i → innerPass n i f (i + 1) k = f k := fun k hk =>
        innerPass_frame (n - (i + 1)) n i (i + 1) f (le_refl _) k (by omega) (by omega)
      have gmax : ∀ m, i ≤ m → m < n →
          (innerPass n i f (i + 1) m).Complexity ≤
            (innerPass n i f (i + 1) i).Complexity := by
        intro m him hmn
        refine innerPass_le (n - (i + 1)) n i (i + 1) f (le_refl _) (by omega) ?_ m him hmn
        intro k hik hki1
        have : k = i := by omega
        rw [this]
      have gex : ∀ m, i ≤ m → m < n →
          ∃ m', i ≤ m' ∧ m' < n ∧ innerPass n i f (i + 1) m = f m' :=
        fun m him hmn =>
          innerPass_exists (n - (i + 1)) n i (i + 1) f (le_refl _) (by omega) m him hmn
      refine ih n (i + 1) _ (by omega) ?_ ?_ k k' hkk hkn
      · intro k m hk hm hmn2
        obtain ⟨m', him', hm'n, hgm⟩ := gex m (by omega) hmn2
        rcases Nat.lt_or_ge k i with hki | hki
        · rw [gfr k hki, hgm]
          exact hA k m' hki him' hm'n
        · have : k = i := by omega
          subst this
          exact gmax m (by omega) hmn2
      · intro k k2 hk12 hk2
        rcases Nat.lt_or_ge k2 i with h2 | h2
        · rw [gfr k (by omega), gfr k2 h2]
          exact hB k k2 hk12 h2
        · have hk2i : k2 = i := by omega
          obtain ⟨m', him', hm'n, hgm⟩ := gex i (le_refl i) h
          rw [hk2i, gfr k (by omega), hgm]
          exact hA k m' (by omega) him' hm'n
    · rw [outerPass_stop n f i h]
      exact hB k k' hkk (by omega)

/-- Model of `sortComplexityDesc` always yields a list whose complexities are
non-increasing. -/
lemma sortComplexityDesc_pairwise (l : List FunctionComplexity) :
    (sortComplexityDesc l).Pairwise
      (fun a b => b.Complexity ≤ a.Complexity) := by
  unfold sortComplexityDesc
  rw [List.pairwise_map]
  refine List.Pairwise.imp_of_mem ?_ (List.pairwise_lt_range l.length)
  intro a b ha hb hab
  exact outerPass_sorted l.length l.length 0 _ (le_refl _)
    (fun k m hk _ _ => absurd hk (Nat.not_lt_zero k))
    (fun k k' _ hk' => absurd hk' (Nat.not_lt_zero k'))
    a b hab (List.mem_range.mp hb)

end Drift

namespace Drift

/-! ## Claim C1 -/

/-- C1 counterexample: the claim says `sortComplexityDesc` is stable:
records of equal complexity keep their discovery order.  On the input below
the records named "A" and "B" both have complexity 2, with "A" discovered
first; the only descending arrangement that keeps them in discovery order is
`[D, A, B, P]`, yet the code produces `[D, B, A, P]` — the eager-swap
selection sort is not stable. -/
theorem c1_counterexample :
    sortComplexityDesc
      [⟨"a.go", "P", 1, 1⟩, ⟨"a.go", "A", 2, 2⟩, ⟨"a.go", "B", 3, 2⟩,
       ⟨"a.go", "D", 4, 3⟩] =
      [⟨"a.go", "D", 4, 3⟩, ⟨"a.go", "B", 3, 2⟩, ⟨"a.go", "A", 2, 2⟩,
       ⟨"a.go", "P", 1, 1⟩] ∧
    sortComplexityDesc
      [⟨"a.go", "P", 1, 1⟩, ⟨"a.go", "A", 2, 2⟩, ⟨"a.go", "B", 3, 2⟩,
       ⟨"a.go", "D", 4, 3⟩] ≠
      [⟨"a.go", "D", 4, 3⟩, ⟨"a.go", "A", 2, 2⟩, ⟨"a.go", "B", 3, 2⟩,
       ⟨"a.go", "P", 1, 1⟩] := by
  constructor
  · decide
  · decide

/-- C1 (amended): for every full analysis run, the `FunctionRecord`
list in the aggregate result is sorted in descending order of complexity.
(The stability half of the original claim is refuted by
`c1_counterexample`; descending order is what the code guarantees.) -/
theorem c1_run_complexity_sorted_desc (la : LanguageAnalyzer) (cfg : Config)
    (r : Results) (h : run la cfg = some r) :
    r.Complexity.Pairwise (fun a b => b.Complexity ≤ a.Complexity) := by
  unfold run at h
  cases hf : la.FindFiles cfg.Root cfg.Exclude with
  | none =>
    rw [hf] at h
    cases h
  | some files =>
    rw [hf] at h
    dsimp only at h
    injection h with h'
    subst h'
    exact sortComplexityDesc_pairwise _

/-- Witness for `c1_run_complexity_sorted_desc`: a concrete run of the
orchestrator on `sampleAnalyzer` whose records come back sorted. -/
theorem c1_run_complexity_sorted_desc_witness :
    ([⟨"a.go", "helper", 5, 7⟩, ⟨"a.go", "main", 1, 3⟩] :
        List FunctionComplexity).Pairwise
      (fun a b => b.Complexity ≤ a.Complexity) :=
  c1_run_complexity_sorted_desc sampleAnalyzer sampleConfig
    { Complexity := [⟨"a.go", "helper", 5, 7⟩, ⟨"a.go", "main", 1, 3⟩],
      Dependencies := [], Violations := [], DeadCode := [],
      FileCount := 1, FuncCount := 2, Language := "go" } rfl

/-! ## Claim C9 -/

/-- C9: the single-file incremental path returns only that file's
function-complexity records plus its file and function counts; its
dependency, boundary-violation and dead-code lists are always empty — those
analyses are never run on this path. -/
theorem c9_run_single_frame (la : LanguageAnalyzer) (path : String) :
    (runSingle la path).Dependencies = [] ∧
    (runSingle la path).Violations = [] ∧
    (runSingle la path).DeadCode = [] ∧
    (la.Extensions.any (extMatches path) = true →
      (runSingle la path).Complexity = (la.AnalyzeComplexity [path]).1 ∧
      (runSingle la path).FuncCount = (la.AnalyzeComplexity [path]).2 ∧
      (runSingle la path).FileCount = 1) ∧
    (la.Extensions.any (extMatches path) = false →
      (runSingle la path).Complexity = [] ∧
      (runSingle la path).FileCount = 0) := by
  rcases hac : la.AnalyzeComplexity [path] with ⟨c, fc⟩
  unfold runSingle
  rw [hac]
  dsimp only
  by_cases h : la.Extensions.any (extMatches path) = true
  · rw [if_pos h]
    exact ⟨rfl, rfl, rfl, fun _ => ⟨rfl, rfl, rfl⟩,
      fun hf => by rw [h] at hf; cases hf⟩
  · rw [if_neg h]
    exact ⟨rfl, rfl, rfl, fun ht => absurd ht h, fun _ => ⟨rfl, rfl⟩⟩

/-- Witness for `c9_run_single_frame`: a single-file run of the sample
analyzer on `a.go` keeps the dependency list empty and recomputes only that
file's complexity records. -/
theorem c9_run_single_frame_witness :
    (runSingle sampleAnalyzer "a.go").Dependencies = [] ∧
    (runSingle sampleAnalyzer "a.go").Complexity =
      (sampleAnalyzer.AnalyzeComplexity ["a.go"]).1 :=
  ⟨(c9_run_single_frame sampleAnalyzer "a.go").1,
   ((c9_run_single_frame sampleAnalyzer "a.go").2.2.2.1 (by decide)).1⟩

/-! ## Lemmas about the complexity counters -/

mutual
lemma countExpr_nonneg : ∀ e : GoExpr, 0 ≤ countExpr e
  | .ident _ => le_refl 0
  | .binary op l r => by
    have hl := countExpr_nonneg l
    have hr := countExpr_nonneg r
    simp only [countExpr]
    split <;> omega
  | .unary e => countExpr_nonneg e
  | .call fn args => by
    have h1 := countExpr_nonneg fn
    have h2 := countExprList_nonneg args
    simp only [countExpr]
    omega
  | .paren e => countExpr_nonneg e
  | .funcLit _ => le_refl 0

lemma countExprList_nonneg : ∀ es : List GoExpr, 0 ≤ countExprList es
  | [] => le_refl 0
  | e :: rest => by
    have h1 := countExpr_nonneg e
    have h2 := countExprList_nonneg rest
    simp only [countExprList]
    omega

lemma countOptExpr_nonneg : ∀ oe : Option GoExpr, 0 ≤ countOptExpr oe
  | none => le_refl 0
  | some e => countExpr_nonneg e

lemma countStmt_nonneg : ∀ s : GoStmt, 0 ≤ countStmt s
  | .exprStmt e => countExpr_nonneg e
  | .assign rhs => countExprList_nonneg rhs
  | .ret results => countExprList_nonneg results
  | .ifStmt cond body els => by
    have h1 := countExpr_nonneg cond
    have h2 := countStmtList_nonneg body
    have h3 := countOptStmt_nonneg els
    simp only [countStmt]
    omega
  | .forStmt cond body => by
    have h1 := countOptExpr_nonneg cond
    have h2 := countStmtList_nonneg body
    simp only [countStmt]
    omega
  | .rangeStmt x body => by
    have h1 := countExpr_nonneg x
    have h2 := countStmtList_nonneg body
    simp only [countStmt]
    omega
  | .switchStmt tag cases => by
    have h1 := countOptExpr_nonneg tag
    have h2 := countCaseList_nonneg cases
    simp only [countStmt]
    omega
  | .typeSwitchStmt cases => by
    have h1 := countCaseList_nonneg cases
    simp only [countStmt]
    omega
  | .selectStmt comms => by
    have h1 := countCommList_nonneg comms
    simp only [countStmt]
    omega
  | .block stmts => countStmtList_nonneg stmts

lemma countStmtList_nonneg : ∀ ss : List GoStmt, 0 ≤ countStmtList ss
  | [] => le_refl 0
  | s :: rest => by
    have h1 := countStmt_nonneg s
    have h2 := countStmtList_nonneg rest
    simp only [countStmtList]
    omega

lemma countOptStmt_nonneg : ∀ os : Option GoStmt, 0 ≤ countOptStmt os
  | none => le_refl 0
  | some s => countStmt_nonneg s

lemma countCase_nonneg : ∀ c : GoCaseClause, 0 ≤ countCase c
  | .mk patterns body => by
    have h1 := countOptExprList_nonneg patterns
    have h2 := countStmtList_nonneg body
    simp only [countCase]
    split <;> omega

lemma countOptExprList_nonneg : ∀ oes : Option (List GoExpr), 0 ≤ countOptExprList oes
  | none => le_refl 0
  | some es => countExprList_nonneg es

lemma countCaseList_nonneg : ∀ cs : List GoCaseClause, 0 ≤ countCaseList cs
  | [] => le_refl 0
  | c :: rest => by
    have h1 := countCase_nonneg c
    have h2 := countCaseList_nonneg rest
    simp only [countCaseList]
    omega

lemma countComm_nonneg : ∀ c : GoCommClause, 0 ≤ countComm c
  | .mk comm body => by
    have h1 := countOptStmt_nonneg comm
    have h2 := countStmtList_nonneg body
    simp only [countComm]
    split <;> omega

lemma countCommList_nonneg : ∀ cs : List GoCommClause, 0 ≤ countCommList cs
  | [] => le_refl 0
  | c :: rest => by
    have h1 := countComm_nonneg c
    have h2 := countCommList_nonneg rest
    simp only [countCommList]
    omega
end

/-- The decision-point count distributes over statement-list append. -/
lemma countStmtList_append (xs ys : List GoStmt) :
    countStmtList (xs ++ ys) = countStmtList xs + countStmtList ys := by
  induction xs with
  | nil => simp [countStmtList]
  | cons s rest ih =>
    simp only [List.cons_append, countStmtList, List.append_eq]
    rw [ih]
    ring

/-- Folding the heuristic line step cannot decrease the accumulator when
all pattern weights are non-negative. -/
lemma lineWeight_foldl_le (line : String) :
    ∀ (ps : List ComplexityPattern) (init : Int),
      (∀ p ∈ ps, 0 ≤ p.weight) →
      init ≤ ps.foldl (fun acc p => if p.pattern line then acc + p.weight else acc) init := by
  intro ps
  induction ps with
  | nil => intro init _; exact le_refl init
  | cons p rest ih =>
    intro init hw
    simp only [List.foldl_cons]
    have hstep : init ≤ if p.pattern line then init + p.weight else init := by
      have := hw p (by simp)
      split <;> omega
    exact le_trans hstep (ih _ (fun q hq => hw q (by simp [hq])))

/-- Non-negative pattern weights give non-negative line weights. -/
lemma lineWeight_nonneg (patterns : List ComplexityPattern) (line : String)
    (hw : ∀ p ∈ patterns, 0 ≤ p.weight) : 0 ≤ lineWeight patterns line :=
  lineWeight_foldl_le line patterns 0 hw

/-- Folding the heuristic span step cannot decrease the accumulator when
all pattern weights are non-negative. -/
lemma spanFold_le (patterns : List ComplexityPattern)
    (hw : ∀ p ∈ patterns, 0 ≤ p.weight) :
    ∀ (lines : List String) (init : Int),
      init ≤ lines.foldl (fun c line => c + lineWeight patterns line) init := by
  intro lines
  induction lines with
  | nil => intro init; exact le_refl init
  | cons line rest ih =>
    intro init
    simp only [List.foldl_cons]
    have h1 : 0 ≤ lineWeight patterns line := lineWeight_nonneg patterns line hw
    exact le_trans (by omega) (ih (init + lineWeight patterns line))

/-- Folding the heuristic span step over lines that all weigh zero leaves
the accumulator unchanged. -/
lemma spanFold_zero (patterns : List ComplexityPattern) :
    ∀ (lines : List String) (init : Int),
      (∀ line ∈ lines, lineWeight patterns line = 0) →
      lines.foldl (fun c line => c + lineWeight patterns line) init = init := by
  intro lines
  induction lines with
  | nil => intro init _; rfl
  | cons line rest ih =>
    intro init hz
    simp only [List.foldl_cons, hz line (by simp)]
    rw [add_zero]
    exact ih init (fun l hl => hz l (by simp [hl]))

/-! ## Claim C2 -/

/-- C2 counterexample: the claim splits stale vs. outdated at the
*configured* staleness threshold, but both classifiers hard-code 90 and
the configured `Thresholds.MaxStaleDays` never reaches them — in the
orchestrator model, `LanguageAnalyzer.AnalyzeDeps` receives only the
project root, exactly as `Analyzer.Run` passes only `a.cfg.Root` in Go.
With the threshold configured to 30, a dependency 40 days behind the
latest version is `outdated` according to the claim, yet both the Go and
the TypeScript classifier report `stale`. -/
theorem c2_counterexample :
    (classifyGoDep "mod" "v1.0.0" (some ("v2.0.0", 40))).Status = "stale" ∧
    (classifyTsDep "pkg" "1.0.0" (some "2.0.0") (some 40)).Status = "stale" ∧
    specClassifyStatus 30 40 = "outdated" ∧
    (classifyGoDep "mod" "v1.0.0" (some ("v2.0.0", 40))).Status ≠
      specClassifyStatus 30 40 ∧
    (classifyTsDep "pkg" "1.0.0" (some "2.0.0") (some 40)).Status ≠
      specClassifyStatus 30 40 := by
  refine ⟨?_, ?_, ?_, ?_, ?_⟩ <;> decide

/-- C2 (amended): the stale/outdated split sits at the fixed 90-day
threshold hard-coded in both classifiers — the configured
`Thresholds.MaxStaleDays` affects only the dependency sub-score, not
classification.  A dependency whose declared version differs from the
registry's latest and whose publish timestamp is available is `stale`
exactly when days-since-publish ≤ 90 and `outdated` exactly when it
exceeds 90, with `StaleDays` the day count; a dependency whose declared
version equals the latest is `current` with `StaleDays` 0.  The
TypeScript classifier behaves the same with its `estimateStaleDays`
value. -/
theorem c2_staleness_classification :
    (∀ (module current latest : String) (staleDays : Int),
      current ≠ latest →
        ((classifyGoDep module current (some (latest, staleDays))).Status = "stale"
            ↔ staleDays ≤ 90) ∧
        ((classifyGoDep module current (some (latest, staleDays))).Status = "outdated"
            ↔ 90 < staleDays) ∧
        (classifyGoDep module current (some (latest, staleDays))).StaleDays
            = staleDays) ∧
    (∀ (module current : String) (staleDays : Int),
      (classifyGoDep module current (some (current, staleDays))).Status = "current" ∧
      (classifyGoDep module current (some (current, staleDays))).StaleDays = 0) ∧
    (∀ (name current latest : String) (days : Int),
      current ≠ latest →
        ((classifyTsDep name current (some latest) (some days)).Status = "stale"
            ↔ days ≤ 90) ∧
        ((classifyTsDep name current (some latest) (some days)).Status = "outdated"
            ↔ 90 < days) ∧
        (classifyTsDep name current (some latest) (some days)).StaleDays = days) ∧
    (∀ (name current : String) (days : Option Int),
      (classifyTsDep name current (some current) days).Status = "current" ∧
      (classifyTsDep name current (some current) days).StaleDays = 0) := by
  refine ⟨?_, ?_, ?_, ?_⟩
  · intro module current latest staleDays h
    simp only [classifyGoDep, if_neg h]
    by_cases h90 : staleDays > 90
    · rw [if_pos h90]
      refine ⟨?_, ?_, rfl⟩
      · simp only []
        constructor
        · intro hs
          exact absurd hs (by simp)
        · intro hs
          omega
      · simp only []
        constructor
        · intro _
          omega
        · intro _
          trivial
    · rw [if_neg h90]
      refine ⟨?_, ?_, rfl⟩
      · simp only []
        constructor
        · intro _
          omega
        · intro _
          trivial
      · simp only []
        constructor
        · intro hs
          exact absurd hs (by simp)
        · intro hs
          omega
  · intro module current staleDays
    simp [classifyGoDep]
  · intro name current latest days h
    simp only [classifyTsDep, estimateStaleDays, if_neg h]
    by_cases h90 : days > 90
    · rw [if_pos h90]
      refine ⟨?_, ?_, rfl⟩
      · constructor
        · intro hs
          exact absurd hs (by simp)
        · intro hs
          omega
      · constructor
        · intro _
          omega
        · intro _
          trivial
    · rw [if_neg h90]
      refine ⟨?_, ?_, rfl⟩
      · constructor
        · intro _
          omega
        · intro _
          trivial
      · constructor
        · intro hs
          exact absurd hs (by simp)
        · intro hs
          omega
  · intro name current days
    simp [classifyTsDep]

/-- Witness for `c2_staleness_classification`: a dependency 120 days behind
the latest version is classified `outdated` (the specification's example). -/
theorem c2_staleness_classification_witness :
    (classifyGoDep "yaml" "v2.4.0" (some ("v3.0.1", 120))).Status = "outdated" :=
  ((c2_staleness_classification.1 "yaml" "v2.4.0" "v3.0.1" 120
    (by decide)).2.1).mpr (by norm_num)

/-! ## Claim C3 -/

/-- A conditional-penalty fold is the sum of the per-element penalties. -/
lemma foldl_cond_add {α : Type} (P : α → Prop) [DecidablePred P] (pen : α → ℚ) :
    ∀ (l : List α) (init : ℚ),
      l.foldl (fun acc x => if P x then acc + pen x else acc) init =
        init + (l.map fun x => if P x then pen x else 0).sum := by
  intro l
  induction l with
  | nil => intro init; simp
  | cons x rest ih =>
    intro init
    simp only [List.foldl_cons, List.map_cons, List.sum_cons]
    by_cases h : P x
    · rw [if_pos h, if_pos h, ih]
      ring
    · rw [if_neg h, if_neg h, ih]
      ring

/-- Model of `Scorer.complexityScore` computes the claim's complexity sub-score. -/
lemma complexityScore_eq_spec (maxComplexity : Int)
    (funcs : List FunctionComplexity) :
    complexityScore maxComplexity funcs =
      specComplexityScore
        (if (maxComplexity : ℚ) = 0 then 15 else (maxComplexity : ℚ)) funcs := by
  unfold complexityScore specComplexityScore
  dsimp only
  cases funcs with
  | nil => norm_num
  | cons f rest =>
    rw [if_neg (by simp)]
    rw [foldl_cond_add
      (fun fc : FunctionComplexity =>
        (fc.Complexity : ℚ) > if (maxComplexity : ℚ) = 0 then 15 else (maxComplexity : ℚ))
      (fun fc : FunctionComplexity =>
        min (((fc.Complexity : ℚ) -
            (if (maxComplexity : ℚ) = 0 then 15 else (maxComplexity : ℚ))) /
          (if (maxComplexity : ℚ) = 0 then 15 else (maxComplexity : ℚ)) * 20) 20)
      (f :: rest) 0]
    norm_num

/-- Under the invariants satisfied by every dependency record the resolver
produces (`StaleDays` non-negative, and zero on `current` records),
`Scorer.depsScore` computes the claim's dependency sub-score, which
penalises per **non-current** dependency. -/
lemma depsScore_eq_spec (maxStaleDays : Int) (deps : List DepStatus)
    (hd : ∀ d ∈ deps, 0 ≤ d.StaleDays ∧ (d.Status = "current" → d.StaleDays = 0)) :
    depsScore maxStaleDays deps =
      specDepsScore
        (if (maxStaleDays : ℚ) = 0 then 90 else (maxStaleDays : ℚ)) deps := by
  have hmap : (deps.map fun dep : DepStatus =>
        if dep.StaleDays > 0 then
          min ((dep.StaleDays : ℚ) /
            (if (maxStaleDays : ℚ) = 0 then 90 else (maxStaleDays : ℚ)) * 15) 15
        else 0) =
      (deps.map fun dep : DepStatus =>
        if dep.Status ≠ "current" then
          min ((dep.StaleDays : ℚ) /
            (if (maxStaleDays : ℚ) = 0 then 90 else (maxStaleDays : ℚ)) * 15) 15
        else 0) := by
    refine List.map_congr_left ?_
    intro d hdmem
    obtain ⟨hnn, hcur⟩ := hd d hdmem
    by_cases hpos : d.StaleDays > 0
    · rw [if_pos hpos,
        if_pos (show d.Status ≠ "current" from fun hc => by
          have := hcur hc
          omega)]
    · rw [if_neg hpos]
      have hzero : d.StaleDays = 0 := by omega
      by_cases hc : d.Status = "current"
      · rw [if_neg (show ¬ d.Status ≠ "current" by simp [hc])]
      · rw [if_pos (show d.Status ≠ "current" from hc), hzero]
        norm_num
  unfold depsScore specDepsScore
  dsimp only
  cases deps with
  | nil => norm_num
  | cons d0 rest =>
    rw [if_neg (by simp)]
    rw [foldl_cond_add (fun dep : DepStatus => dep.StaleDays > 0)
      (fun dep : DepStatus =>
        min ((dep.StaleDays : ℚ) /
          (if (maxStaleDays : ℚ) = 0 then 90 else (maxStaleDays : ℚ)) * 15) 15)
      (d0 :: rest) 0]
    rw [zero_add, hmap]

/-- Model of `Scorer.boundariesScore` computes the claim's boundary sub-score. -/
lemma boundariesScore_eq_spec (violations : List BoundaryViolation) :
    boundariesScore violations = specBoundariesScore violations := by
  unfold boundariesScore specBoundariesScore
  cases violations with
  | nil => norm_num
  | cons v rest =>
    rw [if_neg (by simp)]
    ring_nf

/-- Model of `Scorer.deadCodeScore` computes the claim's dead-code sub-score. -/
lemma deadCodeScore_eq_spec (deadCode : List DeadFunction) :
    deadCodeScore deadCode = specDeadCodeScore deadCode := by
  unfold deadCodeScore specDeadCodeScore
  cases deadCode with
  | nil => norm_num
  | cons v rest =>
    rw [if_neg (by simp)]
    ring_nf

/-- C3: the function `Scorer.Calculate` computes exactly the claim's formula —
per-metric penalty functions, clamping, weight-weighted sum, rounding to
one decimal — and on the specification's example (sub-scores 80, 90, 100,
95, 100 with weights 0.30, 0.20, 0.20, 0.15, 0.15) the total is 91.3. -/
theorem c3_health_score_formula :
    (∀ (w : WeightConfig) (maxComplexity maxStaleDays : Int) (previous : ℚ)
        (r : Results),
      (∀ d ∈ r.Dependencies,
          0 ≤ d.StaleDays ∧ (d.Status = "current" → d.StaleDays = 0)) →
      (calculate w maxComplexity maxStaleDays previous r).1.Total =
        specTotal w
          (if (maxComplexity : ℚ) = 0 then 15 else (maxComplexity : ℚ))
          (if (maxStaleDays : ℚ) = 0 then 90 else (maxStaleDays : ℚ)) r) ∧
    (calculate defaultWeights 15 90 (-1) exampleResults).1.Complexity = 80 ∧
    (calculate defaultWeights 15 90 (-1) exampleResults).1.Deps = 90 ∧
    (calculate defaultWeights 15 90 (-1) exampleResults).1.Boundaries = 100 ∧
    (calculate defaultWeights 15 90 (-1) exampleResults).1.DeadCode = 95 ∧
    (calculate defaultWeights 15 90 (-1) exampleResults).1.Coverage = 100 ∧
    (calculate defaultWeights 15 90 (-1) exampleResults).1.Total = 913 / 10 := by
  refine ⟨?_, ?_, ?_, ?_, ?_, rfl, ?_⟩
  · intro w maxComplexity maxStaleDays previous r hdeps
    unfold calculate specTotal
    rw [complexityScore_eq_spec, depsScore_eq_spec maxStaleDays r.Dependencies hdeps,
      boundariesScore_eq_spec, deadCodeScore_eq_spec]
  · show complexityScore 15 exampleResults.Complexity = 80
    unfold complexityScore exampleResults
    norm_num
  · show depsScore 90 exampleResults.Dependencies = 90
    unfold depsScore exampleResults
    norm_num
  · show boundariesScore exampleResults.Violations = 100
    unfold boundariesScore exampleResults
    norm_num
  · show deadCodeScore exampleResults.DeadCode = 95
    unfold deadCodeScore exampleResults
    norm_num
  · show goRound ((complexityScore 15 exampleResults.Complexity * defaultWeights.Complexity +
      depsScore 90 exampleResults.Dependencies * defaultWeights.Deps +
      boundariesScore exampleResults.Violations * defaultWeights.Boundaries +
      deadCodeScore exampleResults.DeadCode * defaultWeights.DeadCode +
      100 * defaultWeights.Coverage) * 10) / 10 = 913 / 10
    unfold goRound complexityScore depsScore boundariesScore deadCodeScore
      exampleResults defaultWeights
    norm_num

/-- Witness for `c3_health_score_formula`: the code total equals the
claim-formula total on the example results at the default thresholds. -/
theorem c3_health_score_formula_witness :
    (calculate defaultWeights 15 90 (-1) exampleResults).1.Total =
      specTotal defaultWeights
        (if ((15 : Int) : ℚ) = 0 then 15 else ((15 : Int) : ℚ))
        (if ((90 : Int) : ℚ) = 0 then 90 else ((90 : Int) : ℚ)) exampleResults :=
  c3_health_score_formula.1 defaultWeights 15 90 (-1) exampleResults
    (by decide)

/-! ## Claim C7 -/

/-- Model of `strings.Contains` (as `containsSublist`) decides the infix relation. -/
lemma containsSublist_iff (pat : List Char) :
    ∀ l : List Char, containsSublist pat l = true ↔ pat <:+: l := by
  intro l
  induction l with
  | nil =>
    simp [containsSublist, List.isEmpty_iff]
  | cons c rest ih =>
    simp only [containsSublist, Bool.or_eq_true, List.isPrefixOf_iff_prefix, ih,
      List.infix_cons_iff]

/-- Model of `matchesImport` decides "the import path contains the rule's `to` as a
substring". -/
lemma matchesImport_iff (importPath pat : List Char) :
    matchesImport importPath pat = true ↔ pat <:+: importPath :=
  containsSublist_iff pat importPath

/-- Model of `matchesPath` decides "the file's directory equals `from` or has `from`
as a textual prefix" — which is exactly the prefix relation. -/
lemma matchesPath_iff (dir pat : List Char) :
    matchesPath dir pat = true ↔ pat <+: dir := by
  simp only [matchesPath, Bool.or_eq_true, List.isPrefixOf_iff_prefix, beq_iff_eq]
  constructor
  · rintro (h | h)
    · exact h
    · rw [h]
  · exact Or.inl

/-- The shared rule-loop body, once the rule parses into non-empty parts,
emits one violation exactly when both matchers fire. -/
lemma ruleViolation_eq (filePath fileDir : List Char) (rule fromPat toPat : List Char)
    (hp : parseBoundaryRule rule = (fromPat, toPat))
    (h1 : fromPat ≠ []) (h2 : toPat ≠ []) (imp : ImportMatch) :
    ruleViolation filePath fileDir imp rule =
      if matchesPath fileDir fromPat && matchesImport imp.path toPat then
        some ⟨filePath, imp.line, fromPat, toPat, imp.path⟩
      else none := by
  unfold ruleViolation
  rw [hp]
  dsimp only
  rw [if_neg (by simp [h1, h2])]

/-- Violation counts are additive in the rule list: every rule contributes
its own per-import violations independently of the others (order differs —
the code groups by import first — but the count per rule is preserved). -/
lemma checkBoundaryViolations_length_append (fp fd : List Char)
    (imports : List ImportMatch) (rules₁ rules₂ : List (List Char)) :
    (checkBoundaryViolations fp fd imports (rules₁ ++ rules₂)).length =
      (checkBoundaryViolations fp fd imports rules₁).length +
        (checkBoundaryViolations fp fd imports rules₂).length := by
  unfold checkBoundaryViolations
  cases rules₁ with
  | nil => simp
  | cons a as =>
    cases rules₂ with
    | nil => simp
    | cons b bs =>
      rw [if_neg (by simp), if_neg (by simp), if_neg (by simp)]
      induction imports with
      | nil => simp
      | cons imp rest ih =>
        simp only [List.flatMap_cons, List.length_append, List.filterMap_append]
          at ih ⊢
        omega

/-- C7: under a single parsed rule `from -> to` (both sides
non-empty), the violations for a file are exactly one per import whose
path contains `to`, when the file's directory matches `from`, and none
otherwise; `matchesPath` is the equals-or-textual-prefix test and
`matchesImport` the substring test; and on the specification's example the
`pkg/api` file yields exactly one violation while the `pkg/other` file
yields none. -/
theorem c7_boundary_rule_matching :
    (∀ (filePath fileDir : List Char) (imports : List ImportMatch)
        (rule fromPat toPat : List Char),
      parseBoundaryRule rule = (fromPat, toPat) → fromPat ≠ [] → toPat ≠ [] →
      checkBoundaryViolations filePath fileDir imports [rule] =
        if matchesPath fileDir fromPat then
          (imports.filter fun imp => matchesImport imp.path toPat).map
            (fun imp => ⟨filePath, imp.line, fromPat, toPat, imp.path⟩)
        else []) ∧
    (∀ dir pat : List Char, matchesPath dir pat = true ↔ pat <+: dir) ∧
    (∀ importPath pat : List Char,
      matchesImport importPath pat = true ↔ pat <:+: importPath) ∧
    (checkBoundaryViolations "pkg/api/h.go".toList "pkg/api".toList
        [⟨"example.com/x/internal/db/conn".toList, 3⟩]
        ["pkg/api -> internal/db".toList]).length = 1 ∧
    (checkBoundaryViolations "pkg/other/h.go".toList "pkg/other".toList
        [⟨"example.com/x/internal/db/conn".toList, 3⟩]
        ["pkg/api -> internal/db".toList]).length = 0 ∧
    (∀ (filePath fileDir : List Char) (imports : List ImportMatch)
        (rules₁ rules₂ : List (List Char)),
      (checkBoundaryViolations filePath fileDir imports (rules₁ ++ rules₂)).length =
        (checkBoundaryViolations filePath fileDir imports rules₁).length +
          (checkBoundaryViolations filePath fileDir imports rules₂).length) := by
  refine ⟨?_, matchesPath_iff, matchesImport_iff, by decide, by decide,
    checkBoundaryViolations_length_append⟩
  intro filePath fileDir imports rule fromPat toPat hp h1 h2
  induction imports with
  | nil =>
    by_cases hm : matchesPath fileDir fromPat <;>
      simp [checkBoundaryViolations, hm]
  | cons imp rest ih =>
    simp only [checkBoundaryViolations, List.isEmpty_cons, Bool.false_eq_true,
      if_false, List.flatMap_cons] at ih ⊢
    rw [List.filterMap_cons, List.filterMap_nil,
      ruleViolation_eq filePath fileDir rule fromPat toPat hp h1 h2 imp]
    by_cases hm : matchesPath fileDir fromPat
    · rw [if_pos hm] at ih ⊢
      by_cases hi : matchesImport imp.path toPat
      · simp only [hm, hi, Bool.and_self, if_pos, List.filter_cons, ih]
        simp
      · simp only [hm, hi, Bool.and_false, if_neg, List.filter_cons, ih]
        simp [hi]
    · rw [if_neg hm] at ih ⊢
      simp only [hm, Bool.false_and]
      simp [ih]

/-- Witness for `c7_boundary_rule_matching`: the specification's
`pkg/api -> internal/db` rule applied to the `pkg/api` file. -/
theorem c7_boundary_rule_matching_witness :
    checkBoundaryViolations "pkg/api/h.go".toList "pkg/api".toList
        [⟨"example.com/x/internal/db/conn".toList, 3⟩]
        ["pkg/api -> internal/db".toList] =
      if matchesPath "pkg/api".toList "pkg/api".toList then
        (([⟨"example.com/x/internal/db/conn".toList, 3⟩] :
            List ImportMatch).filter
            fun imp => matchesImport imp.path "internal/db".toList).map
          (fun imp => ⟨"pkg/api/h.go".toList, imp.line, "pkg/api".toList,
            "internal/db".toList, imp.path⟩)
      else [] :=
  c7_boundary_rule_matching.1 "pkg/api/h.go".toList "pkg/api".toList
    [⟨"example.com/x/internal/db/conn".toList, 3⟩]
    "pkg/api -> internal/db".toList "pkg/api".toList "internal/db".toList
    (by decide) (by decide) (by decide)

/-! ## Claim C10 -/

/-- Pointwise-equal functions give equal flat maps. -/
lemma flatMap_congr_fun {α β : Type} (l : List α) (f g : α → List β)
    (h : ∀ a, f a = g a) : l.flatMap f = l.flatMap g := by
  rw [funext h]

/-- C10: a boundary rule that does not split on `"->"` into exactly
two parts, or whose `from` or `to` part trims to the empty string, is
silently skipped by the heuristic analyzer's `checkBoundaryViolations` and
by the exact Go `analyzeImports` alike: inserting it anywhere in the rule
list changes nothing. -/
theorem c10_malformed_rules_skipped (r : List Char)
    (hbad : (splitArrowAux [] r).length ≠ 2 ∨
      (∃ a b, splitArrowAux [] r = [a, b] ∧
        (trimSpace a = [] ∨ trimSpace b = []))) :
    (∀ (filePath fileDir : List Char) (imports : List ImportMatch)
        (rules₁ rules₂ : List (List Char)),
      checkBoundaryViolations filePath fileDir imports (rules₁ ++ r :: rules₂) =
        checkBoundaryViolations filePath fileDir imports (rules₁ ++ rules₂)) ∧
    (∀ (files : List GoFileImports) (rules₁ rules₂ : List (List Char)),
      analyzeImports files (rules₁ ++ r :: rules₂) =
        analyzeImports files (rules₁ ++ rules₂)) := by
  have hparse : (parseBoundaryRule r).1 = [] ∨ (parseBoundaryRule r).2 = [] := by
    unfold parseBoundaryRule
    rcases hbad with hlen | ⟨a, b, hsplit, htrim⟩
    · cases hs : splitArrowAux [] r with
      | nil => left; rfl
      | cons a rest =>
        cases rest with
        | nil => left; rfl
        | cons b rest2 =>
          cases rest2 with
          | nil =>
            rw [hs] at hlen
            simp at hlen
          | cons c rest3 => left; rfl
    · rw [hsplit]
      dsimp only
      rcases htrim with h | h
      · left; exact h
      · right; exact h
  have hnone : ∀ (fp fd : List Char) (imp : ImportMatch),
      ruleViolation fp fd imp r = none := by
    intro fp fd imp
    unfold ruleViolation
    rcases hpr : parseBoundaryRule r with ⟨f, t⟩
    dsimp only
    rw [if_pos]
    rw [hpr] at hparse
    exact hparse
  have hfm : ∀ (fp fd : List Char) (imp : ImportMatch) (rules₁ rules₂ : List (List Char)),
      (rules₁ ++ r :: rules₂).filterMap (ruleViolation fp fd imp) =
        (rules₁ ++ rules₂).filterMap (ruleViolation fp fd imp) := by
    intro fp fd imp rules₁ rules₂
    rw [List.filterMap_append, List.filterMap_append, List.filterMap_cons,
      hnone fp fd imp]
  constructor
  · intro filePath fileDir imports rules₁ rules₂
    unfold checkBoundaryViolations
    cases h12 : rules₁ ++ rules₂ with
    | nil =>
      obtain ⟨hr1, hr2⟩ := List.append_eq_nil.mp h12
      subst hr1
      subst hr2
      simp only [List.nil_append, List.isEmpty_cons, List.isEmpty_nil, if_pos rfl,
        Bool.false_eq_true, if_false]
      have : ∀ imp : ImportMatch,
          ([r].filterMap (ruleViolation filePath fileDir imp)) = [] := by
        intro imp
        rw [List.filterMap_cons, hnone, List.filterMap_nil]
      rw [flatMap_congr_fun imports _ (fun _ => []) this]
      simp
    | cons q rest =>
      rw [← h12]
      rw [if_neg (by simp), if_neg (by rw [h12]; simp)]
      exact flatMap_congr_fun imports _ _
        (fun imp => hfm filePath fileDir imp rules₁ rules₂)
  · intro files rules₁ rules₂
    unfold analyzeImports
    cases h12 : rules₁ ++ rules₂ with
    | nil =>
      obtain ⟨hr1, hr2⟩ := List.append_eq_nil.mp h12
      subst hr1
      subst hr2
      simp only [List.nil_append, List.isEmpty_cons, List.isEmpty_nil, if_pos rfl,
        Bool.false_eq_true, if_false]
      have : ∀ f : GoFileImports,
          (f.imports.flatMap fun imp => [r].filterMap (ruleViolation f.path f.dir imp)) = [] := by
        intro f
        have hin : ∀ imp : ImportMatch,
            ([r].filterMap (ruleViolation f.path f.dir imp)) = [] := by
          intro imp
          rw [List.filterMap_cons, hnone, List.filterMap_nil]
        rw [flatMap_congr_fun f.imports _ (fun _ => []) hin]
        simp
      rw [flatMap_congr_fun files _ (fun _ => []) this]
      simp
    | cons q rest =>
      rw [← h12]
      rw [if_neg (by simp), if_neg (by rw [h12]; simp)]
      refine flatMap_congr_fun files _ _ (fun f => ?_)
      exact flatMap_congr_fun f.imports _ _
        (fun imp => hfm f.path f.dir imp rules₁ rules₂)

/-- Witness for `c10_malformed_rules_skipped`: the rule `" -> internal/db"`
(whose `from` part trims to empty) never fires. -/
theorem c10_malformed_rules_skipped_witness :
    checkBoundaryViolations "pkg/api/h.go".toList "pkg/api".toList
        [⟨"example.com/x/internal/db/conn".toList, 3⟩]
        ([] ++ " -> internal/db".toList :: []) =
      checkBoundaryViolations "pkg/api/h.go".toList "pkg/api".toList
        [⟨"example.com/x/internal/db/conn".toList, 3⟩] ([] ++ []) :=
  (c10_malformed_rules_skipped " -> internal/db".toList
      (Or.inr ⟨" ".toList, " internal/db".toList, by decide, Or.inl (by decide)⟩)).1
    "pkg/api/h.go".toList "pkg/api".toList
    [⟨"example.com/x/internal/db/conn".toList, 3⟩] [] []

/-! ## Claim C8 -/

/-- C8: a failed registry lookup (modelled by `none`) yields status
`unknown` with zero staleness days; the classification of any other
(direct) dependency is unaffected by the failure; and a zero-`StaleDays`
dependency contributes nothing to the dependency sub-score. -/
theorem c8_registry_failure_isolated :
    (∀ module current : String,
      (classifyGoDep module current none).Status = "unknown" ∧
      (classifyGoDep module current none).StaleDays = 0) ∧
    (∀ (reqs : List Require) (fetch : String → Option (String × Int))
        (m : String) (k : Nat) (r : Require),
      (reqs.filter fun q => !q.indirect)[k]? = some r → r.path ≠ m →
      (analyzeDeps reqs (fun p => if p = m then none else fetch p))[k]? =
        (analyzeDeps reqs fetch)[k]?) ∧
    (∀ (maxStaleDays : Int) (deps₁ deps₂ : List DepStatus) (d : DepStatus),
      d.StaleDays = 0 →
      depsScore maxStaleDays (deps₁ ++ d :: deps₂) =
        depsScore maxStaleDays (deps₁ ++ deps₂)) := by
  refine ⟨fun _ _ => ⟨rfl, rfl⟩, ?_, ?_⟩
  · intro reqs fetch m k r hk hne
    unfold analyzeDeps
    rw [List.getElem?_map, List.getElem?_map, hk]
    simp only [Option.map_some']
    rw [if_neg hne]
  · intro maxStaleDays deps₁ deps₂ d hd0
    unfold depsScore
    dsimp only
    by_cases hlen : (deps₁ ++ deps₂).length = 0
    · rw [if_neg (show ¬ (deps₁ ++ d :: deps₂).length = 0 by simp), if_pos hlen]
      simp only [List.length_append] at hlen
      obtain ⟨h1, h2⟩ : deps₁ = [] ∧ deps₂ = [] := by
        constructor <;> [exact List.eq_nil_of_length_eq_zero (by omega);
          exact List.eq_nil_of_length_eq_zero (by omega)]
      subst h1
      subst h2
      simp [hd0]
    · rw [if_neg (show ¬ (deps₁ ++ d :: deps₂).length = 0 by simp), if_neg hlen]
      rw [foldl_cond_add (fun dep : DepStatus => dep.StaleDays > 0)
        (fun dep : DepStatus =>
          min ((dep.StaleDays : ℚ) /
            (if (maxStaleDays : ℚ) = 0 then 90 else (maxStaleDays : ℚ)) * 15) 15)
        (deps₁ ++ d :: deps₂) 0]
      rw [foldl_cond_add (fun dep : DepStatus => dep.StaleDays > 0)
        (fun dep : DepStatus =>
          min ((dep.StaleDays : ℚ) /
            (if (maxStaleDays : ℚ) = 0 then 90 else (maxStaleDays : ℚ)) * 15) 15)
        (deps₁ ++ deps₂) 0]
      simp [hd0]

/-- Witness for `c8_registry_failure_isolated`: one unknown dependency
scores like no dependency at all, and a lookup failure for a module not in
the require list leaves the resolved entry untouched. -/
theorem c8_registry_failure_isolated_witness :
    depsScore 90 [⟨"lib", "v1", "?", 0, "unknown"⟩] = depsScore 90 [] ∧
    (analyzeDeps [⟨"example.com/lib", "v1", false⟩]
        (fun p => if p = "dead.example/x" then none
                  else (fun _ => some ("v2", 10)) p))[0]? =
      (analyzeDeps [⟨"example.com/lib", "v1", false⟩]
        (fun _ => some ("v2", 10)))[0]? :=
  ⟨c8_registry_failure_isolated.2.2 90 [] [] ⟨"lib", "v1", "?", 0, "unknown"⟩ rfl,
   c8_registry_failure_isolated.2.1 [⟨"example.com/lib", "v1", false⟩]
     (fun _ => some ("v2", 10)) "dead.example/x" 0
     ⟨"example.com/lib", "v1", false⟩ rfl (by decide)⟩

/-! ## Claim C4 -/

/-- C4: under the exact calculator and under every heuristic calculator
(whose pattern tables all use non-negative — in fact unit — weights), the
reported complexity is at least 1; a body with no decision points, in
particular an empty (`some []`) or absent (`none`) body on the exact side
and a span none of whose lines matches any pattern on the heuristic side,
scores exactly 1. -/
theorem c4_complexity_at_least_one :
    (∀ body : Option (List GoStmt), 1 ≤ calcComplexity body) ∧
    calcComplexity none = 1 ∧
    calcComplexity (some []) = 1 ∧
    (∀ patterns : List ComplexityPattern, (∀ p ∈ patterns, 0 ≤ p.weight) →
      ∀ (path : String) (allLines : List String) (funcs : List FuncBoundary),
        ∀ fc ∈ scanHeuristicComplexity path allLines funcs patterns,
          1 ≤ fc.Complexity) ∧
    (∀ (patterns : List ComplexityPattern) (allLines : List String)
        (fn : FuncBoundary),
      (∀ line ∈ (allLines.take fn.stop).drop fn.start,
          lineWeight patterns line = 0) →
      spanComplexity patterns allLines fn = 1) := by
  refine ⟨?_, rfl, rfl, ?_, ?_⟩
  · intro body
    cases body with
    | none => exact le_refl 1
    | some stmts =>
      have := countStmtList_nonneg stmts
      simp only [calcComplexity]
      omega
  · intro patterns hw path allLines funcs fc hfc
    simp only [scanHeuristicComplexity, List.mem_map] at hfc
    obtain ⟨fn, _, rfl⟩ := hfc
    exact spanFold_le patterns hw _ 1
  · intro patterns allLines fn hz
    exact spanFold_zero patterns _ 1 hz

/-- Witness for `c4_complexity_at_least_one`: a function with an empty
detected span scores exactly 1 on the heuristic path. -/
theorem c4_complexity_at_least_one_witness :
    1 ≤ (FunctionComplexity.mk "a.py" "f" 1 1).Complexity :=
  c4_complexity_at_least_one.2.2.2.1 []
    (fun p hp => absurd hp (List.not_mem_nil p)) "a.py" []
    [⟨"f", "a.py", 1, 0, 0⟩] ⟨"a.py", "f", 1, 1⟩
    (List.mem_singleton.mpr rfl)

/-! ## Claim C5 -/

/-- Each non-default case clause of the model switch counts exactly one. -/
lemma countCaseList_replicate (N : Nat) :
    countCaseList (List.replicate N (GoCaseClause.mk (some [.ident "v"]) [])) =
      (N : Int) := by
  induction N with
  | zero => rfl
  | succ n ih =>
    simp only [List.replicate_succ, countCaseList, ih]
    simp [countCase, countOptExprList, countExprList, countExpr, countStmtList]
    ring

/-- C5: under the exact calculator: one conditional branch scores 2;
two sibling branches score 3; two nested branches also score 3 (nesting is
additive); one loop plus a switch with `N` non-default arms scores
`1 + 1 + N`; and `(a && b) || (c && d)` adds exactly 3 (one per
short-circuit operator occurrence) to any function body. -/
theorem c5_exact_calculator_counts :
    calcComplexity (some [.ifStmt (.ident "c") [] none]) = 2 ∧
    calcComplexity
      (some [.ifStmt (.ident "c") [] none, .ifStmt (.ident "d") [] none]) = 3 ∧
    calcComplexity
      (some [.ifStmt (.ident "c") [.ifStmt (.ident "d") [] none] none]) = 3 ∧
    (∀ N : Nat,
      calcComplexity (some [.forStmt none [],
        .switchStmt none
          (List.replicate N (GoCaseClause.mk (some [.ident "v"]) []))]) =
        1 + 1 + (N : Int)) ∧
    (∀ stmts : List GoStmt,
      calcComplexity (some (stmts ++ [.exprStmt
        (.binary .lor (.binary .land (.ident "a") (.ident "b"))
          (.binary .land (.ident "c") (.ident "d")))])) =
        calcComplexity (some stmts) + 3) := by
  refine ⟨by decide, by decide, by decide, ?_, ?_⟩
  · intro N
    simp only [calcComplexity, countStmtList, countStmt, countOptExpr,
      countCaseList_replicate]
    ring
  · intro stmts
    simp only [calcComplexity, countStmtList_append]
    simp [countStmtList, countStmt, countExpr]
    ring

/-! ## Claim C6 -/

/-- C6: decision points occurring only inside a nested function
literal contribute nothing: appending a closure — whatever branches, loops
or short-circuit operators its body contains — to a function body leaves
the enclosing function's exact complexity unchanged. -/
theorem c6_closure_does_not_inflate (stmts closureBody : List GoStmt) :
    calcComplexity (some (stmts ++ [.exprStmt (.funcLit closureBody)])) =
      calcComplexity (some stmts) := by
  simp only [calcComplexity, countStmtList_append]
  simp only [countStmtList, countStmt, countExpr]
  ring

end Drift
